import Mathlib

/-!
Verification development for the per-worker dispatch loop of
`inference/server/oasst_inference_server/routes/workers.py`.

The Python source is shallowly embedded as executable Lean definitions:

* the in-flight request ledger (`work_request_map : dict[str, WorkRequestContainer]`)
  becomes an association list with Python-dict insert/erase semantics;
* the transactional Message Store (`chat_repository`, external to the file)
  is modelled from the spec as a map from message id to a work state;
* each `async` handler becomes a pure function returning the updated ledger,
  the updated store, the list of externally visible effects it performed,
  and the exception it raised (if any); mutations performed before a raise
  are visible in the returned state, exactly as in the Python source;
* the event-racing `while True` loop of `handle_worker` becomes a small-step
  transition system: the environment chooses which pending futures complete
  (`asyncio.wait` with `FIRST_COMPLETED` can return several), in which order
  the completed futures are iterated, what the queue and the worker produced,
  and which external operations fail;
* the `except Exception` recovery block and the `finally` cleanup block of
  `handle_worker` become functions from the terminating error, the remaining
  ledger and failure injections to the list of performed effects.
-/

namespace OasstWorkers

/-! ## Message store (external collaborator)

Modelled from the spec: the Message Store API of spec section 6 is the
transactional work-state interface of the repository's `chat_repository`
module, which is not part of the dispatch-loop source file.  A message is
in one of the work states below; queue items are pending messages.
-/

inductive MsgState
  | pending
  | started
  | complete
  | aborted
deriving DecidableEq

/-- A message store: message id to work state, unknown ids are pending
(queue items are messages awaiting work). -/
abbrev Store := List (String × MsgState)

def storeGet (st : Store) (mid : String) : MsgState :=
  match st with
  | [] => .pending
  | (k, v) :: rest => if k = mid then v else storeGet rest mid

def storeSet (st : Store) (mid : String) (v : MsgState) : Store :=
  match st with
  | [] => [(mid, v)]
  | (k, w) :: rest => if k = mid then (k, v) :: rest else (k, w) :: storeSet rest mid v

/-- Modelled from the spec: `start_work(message_id, worker_id, worker_config)`
transactionally marks a pending message as started (spec sections 3 and 6);
it fails when the message is not in the pending state, which is what makes
"no double-dispatch" possible. -/
def start_work (st : Store) (mid : String) : Option Store :=
  if storeGet st mid = .pending then some (storeSet st mid .started) else none

/-- Modelled from the spec: `reset_work(message_id)` rolls the started state
back to pending (spec section 6). -/
def reset_work (st : Store) (mid : String) : Store :=
  storeSet st mid .pending

/-- Modelled from the spec: `complete_work(message_id, content)` marks the
message complete (spec section 6). -/
def complete_work (st : Store) (mid : String) : Store :=
  storeSet st mid .complete

/-- Modelled from the spec: `abort_work(message_id, reason)` marks the message
aborted (spec section 6). -/
def abort_work (st : Store) (mid : String) : Store :=
  storeSet st mid .aborted

/-! ## Data model of the source file -/

/-- `inference.WorkRequest`, reduced to the system-assigned request id used as
the ledger key; the thread payload plays no role in the dispatch logic. -/
structure WorkRequest where
  id : String
deriving DecidableEq

/-- `WorkRequestContainer` from the source: the in-flight ledger value. -/
structure WorkRequestContainer where
  work_request : WorkRequest
  message_id : String
  start_time : Nat := 0
  num_responses : Nat := 0
deriving DecidableEq

/-- `WorkRequestContainerMap = dict[str, WorkRequestContainer]`, embedded as an
association list with Python-dict semantics. -/
abbrev WorkRequestContainerMap := List (String × WorkRequestContainer)

def mapLookup (m : WorkRequestContainerMap) (rid : String) : Option WorkRequestContainer :=
  match m with
  | [] => none
  | (k, c) :: rest => if k = rid then some c else mapLookup rest rid

/-- Python dict assignment `m[rid] = c`: replace the binding if the key is
present, append it otherwise. -/
def mapInsert (m : WorkRequestContainerMap) (rid : String) (c : WorkRequestContainer) :
    WorkRequestContainerMap :=
  match m with
  | [] => [(rid, c)]
  | (k, v) :: rest => if k = rid then (k, c) :: rest else (k, v) :: mapInsert rest rid c

/-- Python `del m[rid]`. -/
def mapErase (m : WorkRequestContainerMap) (rid : String) : WorkRequestContainerMap :=
  match m with
  | [] => []
  | (k, v) :: rest => if k = rid then rest else (k, v) :: mapErase rest rid

/-- `WorkRequestNotFound` exception from the source; it records the offending
request id (which may be the Python `None`). -/
structure WorkRequestNotFound where
  request_id : Option String
deriving DecidableEq

/-- `get_work_request_container` from the source: raises `WorkRequestNotFound`
when the request id is `None` or absent; otherwise returns the container and
does not modify the map. -/
def get_work_request_container (work_request_map : WorkRequestContainerMap)
    (request_id : Option String) : Except WorkRequestNotFound WorkRequestContainer :=
  match request_id with
  | none => .error ⟨none⟩
  | some rid =>
    match mapLookup work_request_map rid with
    | none => .error ⟨some rid⟩
    | some container => .ok container

/-- An inbound worker protocol message.  The source discriminates the pydantic
variants by the `response_type` tag string, so the embedding carries the tag
plus the payload fields the loop reads. -/
structure WorkerResponse where
  response_type : String
  request_id : Option String := none
  text : String := ""
  error : String := ""
deriving DecidableEq

/-- Externally visible operations performed by the loop, in program order. -/
inductive Effect
  | startWork (mid : String)
  | resetWork (mid : String)
  | completeWork (mid : String) (content : String)
  | abortWork (mid : String) (reason : String)
  | enqueueWork (mid : String)
  | enqueueToken (mid : String)
  | enqueueFinished (mid : String) (content : String)
  | sendWorkRequest (rid : String)
  | sendPing
  | updateSession
  | closeRedis
  | deleteSession
  | cancelFuture
  | closeWebsocket
deriving DecidableEq

/-- The exceptions the loop body can raise. -/
inductive LoopError
  | workRequestNotFound (request_id : Option String)
  | unknownResponseType (t : String)
  | queueReturnedNone
  | startWorkFailed (mid : String)
  | transmissionFailed (mid : String)
  | externalFailure
  | workerDisconnected
deriving DecidableEq

def errMsg : LoopError → String
  | .workRequestNotFound _ => "Work request not found"
  | .unknownResponseType t => "Unknown response type: " ++ t
  | .queueReturnedNone => "Received None from queue. This should never happen."
  | .startWorkFailed _ => "start_work failed"
  | .transmissionFailed _ => "failed to send work request"
  | .externalFailure => "external operation failed"
  | .workerDisconnected => "Worker disconnected"

/-- A raised Python error, distinguishing `Exception` subclasses (caught by the
source's `except Exception` recovery block) from `BaseException`-only signals
such as `asyncio.CancelledError` (not caught by it). -/
inductive PyError
  | exc (e : LoopError)
  | cancelled
deriving DecidableEq

/-- Result of one handler call: the ledger and store after all mutations that
happened before the handler returned or raised, the effects it performed, and
the exception it raised (`none` when it returned normally). -/
structure HResult where
  work_request_map : WorkRequestContainerMap
  store : Store
  fx : List Effect
  err : Option LoopError
deriving DecidableEq

/-! ## Response handlers (source order preserved)

Failures of external operations (redis enqueue, store transactions) are
injected through explicit boolean parameters; `false` everywhere is the
failure-free run.
-/

/-- `handle_token_response`: look up the container (raising
`WorkRequestNotFound` when absent), forward the raw payload onto the
per-message output channel, then increment `num_responses`.  When the channel
enqueue raises, the increment has not happened yet. -/
def handle_token_response (failEnqueue : Bool) (m : WorkRequestContainerMap)
    (st : Store) (response : WorkerResponse) : HResult :=
  match get_work_request_container m response.request_id with
  | .error e => ⟨m, st, [], some (.workRequestNotFound e.request_id)⟩
  | .ok c =>
    if failEnqueue then ⟨m, st, [], some .externalFailure⟩
    else ⟨mapInsert m (response.request_id.getD "") { c with num_responses := c.num_responses + 1 },
          st, [.enqueueToken c.message_id], none⟩

/-- `handle_generated_text_response`: look up the container, transactionally
complete the work, forward the finished notification, and only then delete the
ledger entry.  A raise from `complete_work` leaves store and ledger unchanged;
a raise from the channel enqueue leaves the ledger unchanged although the
store transaction has committed. -/
def handle_generated_text_response (failComplete : Bool) (failFinishedEnqueue : Bool)
    (m : WorkRequestContainerMap) (st : Store) (response : WorkerResponse) : HResult :=
  match get_work_request_container m response.request_id with
  | .error e => ⟨m, st, [], some (.workRequestNotFound e.request_id)⟩
  | .ok c =>
    if failComplete then ⟨m, st, [], some .externalFailure⟩
    else
      let st1 := complete_work st c.message_id
      if failFinishedEnqueue then
        ⟨m, st1, [.completeWork c.message_id response.text], some .externalFailure⟩
      else
        ⟨mapErase m (response.request_id.getD ""), st1,
         [.completeWork c.message_id response.text, .enqueueFinished c.message_id response.text],
         none⟩

/-- `handle_error_response`: look up the container, abort the work with the
reported error as reason, then delete the ledger entry. -/
def handle_error_response (failAbort : Bool) (m : WorkRequestContainerMap)
    (st : Store) (response : WorkerResponse) : HResult :=
  match get_work_request_container m response.request_id with
  | .error e => ⟨m, st, [], some (.workRequestNotFound e.request_id)⟩
  | .ok c =>
    if failAbort then ⟨m, st, [], some .externalFailure⟩
    else ⟨mapErase m (response.request_id.getD ""), abort_work st c.message_id,
          [.abortWork c.message_id response.error], none⟩

/-- `handle_general_error_response`: logs only; no ledger lookup, no mutation. -/
def handle_general_error_response (m : WorkRequestContainerMap) (st : Store)
    (_response : WorkerResponse) : HResult :=
  ⟨m, st, [], none⟩

/-! ## Response router -/

/-- The handling paths of the `match worker_response.response_type` block. -/
inductive RoutePath
  | pongPath
  | tokenPath
  | generatedTextPath
  | errorPath
  | generalErrorPath
  | unknownPath
deriving DecidableEq

/-- The dispatch-by-tag decision of the router, exactly as the source's
sequential `match` on the `response_type` string. -/
def route_response (t : String) : RoutePath :=
  if t = "pong" then .pongPath
  else if t = "token" then .tokenPath
  else if t = "generated_text" then .generatedTextPath
  else if t = "error" then .errorPath
  else if t = "general_error" then .generalErrorPath
  else .unknownPath

/-- Failure injections and external choices for processing one completed
future: the request id produced by `build_work_request`, whether the
websocket send succeeds, and whether each external call in the handlers
succeeds. -/
structure EnvChoice where
  rid : String := ""
  sendOk : Bool := true
  failTokenEnqueue : Bool := false
  failCompleteWork : Bool := false
  failFinishedEnqueue : Bool := false
  failAbortWork : Bool := false
deriving DecidableEq

/-- The `match worker_response.response_type` block of `handle_worker`,
including the `_update_session` calls that follow the individual handlers in
the successful arms (the `token` arm has none in the source). -/
def process_worker_response (env : EnvChoice) (m : WorkRequestContainerMap)
    (st : Store) (resp : WorkerResponse) : HResult :=
  if resp.response_type = "pong" then ⟨m, st, [.updateSession], none⟩
  else if resp.response_type = "token" then
    handle_token_response env.failTokenEnqueue m st resp
  else if resp.response_type = "generated_text" then
    let r := handle_generated_text_response env.failCompleteWork env.failFinishedEnqueue m st resp
    if r.err = none then { r with fx := r.fx ++ [.updateSession] } else r
  else if resp.response_type = "error" then
    let r := handle_error_response env.failAbortWork m st resp
    if r.err = none then { r with fx := r.fx ++ [.updateSession] } else r
  else if resp.response_type = "general_error" then
    let r := handle_general_error_response m st resp
    { r with fx := r.fx ++ [.updateSession] }
  else ⟨m, st, [], some (.unknownResponseType resp.response_type)⟩

/-! ## Dispatch sub-step -/

/-- Result of `initiate_work_for_message`: the transmitted work request on
success, the store after all transactions that ran, the effects, and the
raised exception. -/
structure InitiateResult where
  work_request : Option WorkRequest
  store : Store
  fx : List Effect
  err : Option LoopError
deriving DecidableEq

/-- `initiate_work_for_message`: transactionally `start_work` the message,
build the work request (external; it assigns `rid`), and transmit it.  When
transmission fails, roll back with `reset_work`, re-enqueue the message id on
the worker's queue, and re-raise. -/
def initiate_work_for_message (st : Store) (message_id : String) (rid : String)
    (sendOk : Bool) : InitiateResult :=
  match start_work st message_id with
  | none => ⟨none, st, [], some (.startWorkFailed message_id)⟩
  | some st1 =>
    if sendOk then
      ⟨some ⟨rid⟩, st1, [.startWork message_id, .sendWorkRequest rid], none⟩
    else
      ⟨none, reset_work st1 message_id,
       [.startWork message_id, .resetWork message_id, .enqueueWork message_id],
       some (.transmissionFailed message_id)⟩

/-! ## The event-racing loop as a transition system

`asyncio` model: `pending_futures` holds at most the blocking-dequeue futures
and the receive futures that have been armed and not yet returned by
`asyncio.wait`; the counts are tracked in `pendingDequeues` and
`pendingReceives`.  One `asyncio.wait` round moves an environment-chosen
nonempty subset of the pending futures, with their results, into `donebuf`;
the `for ftr in done` iteration then processes them one at a time in the
order the environment chose.  The `len(pending_futures) == 0` test of the
receive arm sees only the still-pending futures, never the collected ones,
exactly as in the source.
-/

/-- A completed future's result: a dequeue yields `none` (redis timeout) or a
`(queue_name, message_id)` pair; a receive yields a protocol message. -/
inductive FutureResult
  | dequeued (res : Option (String × String))
  | received (resp : WorkerResponse)
deriving DecidableEq

def FutureResult.isDequeue : FutureResult → Bool
  | .dequeued _ => true
  | .received _ => false

def countDequeues (rs : List FutureResult) : Nat :=
  (rs.filter FutureResult.isDequeue).length

def countReceives (rs : List FutureResult) : Nat :=
  (rs.filter (fun r => !r.isDequeue)).length

/-- One scheduling decision of the environment. -/
inductive LoopEvent
  | waitTimeout
  | waitCollect (results : List FutureResult)
  | processNext (env : EnvChoice)
  | disconnect
deriving DecidableEq

inductive LoopStatus
  | running
  | failed (e : PyError)
deriving DecidableEq

/-- `inference.WorkerConfig`, reduced to the fields the loop reads. -/
structure WorkerConfig where
  compat_hash : String := ""
  max_parallel_requests : Nat
deriving DecidableEq

structure LoopState where
  work_request_map : WorkRequestContainerMap
  store : Store
  pendingDequeues : Nat
  pendingReceives : Nat
  donebuf : List FutureResult
  status : LoopStatus
deriving DecidableEq

/-- `_add_dequeue`: arm a dequeue future only when the ledger is below the
concurrency cap. -/
def add_dequeue (cfg : WorkerConfig) (m : WorkRequestContainerMap) (nD : Nat) : Nat :=
  if m.length < cfg.max_parallel_requests then nD + 1 else nD

/-- State after `_add_dequeue(pending_futures); _add_receive(pending_futures)`
just before the `while True` loop. -/
def initState (cfg : WorkerConfig) (st : Store) : LoopState :=
  { work_request_map := []
    store := st
    pendingDequeues := add_dequeue cfg [] 0
    pendingReceives := 1
    donebuf := []
    status := .running }

def statusOf (err : Option LoopError) : LoopStatus :=
  match err with
  | none => .running
  | some e => .failed (.exc e)

/-- The ledger update of the dequeue arm: on successful dispatch, insert a new
in-flight entry keyed by the returned request id; on failure, no entry. -/
def dequeue_insert (m : WorkRequestContainerMap) (message_id : String)
    (o : Option WorkRequest) : WorkRequestContainerMap :=
  match o with
  | some wr => mapInsert m wr.id { work_request := wr, message_id := message_id }
  | none => m

/-- One small step of the `while True` body of `handle_worker`.  `none` means
the event is not enabled in this state (the environment cannot schedule it). -/
def handle_worker_step (cfg : WorkerConfig) (s : LoopState) (ev : LoopEvent) :
    Option (LoopState × List Effect) :=
  if s.status = .running then
    match ev with
    | .waitTimeout =>
      if s.donebuf = [] then some (s, [.sendPing]) else none
    | .disconnect =>
      if s.donebuf = [] then
        some ({ s with status := .failed (.exc .workerDisconnected) }, [])
      else none
    | .waitCollect rs =>
      if s.donebuf = [] ∧ rs ≠ [] ∧ countDequeues rs ≤ s.pendingDequeues ∧
          countReceives rs ≤ s.pendingReceives then
        some ({ s with
                pendingDequeues := s.pendingDequeues - countDequeues rs
                pendingReceives := s.pendingReceives - countReceives rs
                donebuf := rs }, [])
      else none
    | .processNext env =>
      match s.donebuf with
      | [] => none
      | .dequeued none :: rest =>
        some ({ s with donebuf := rest, status := .failed (.exc .queueReturnedNone) }, [])
      | .dequeued (some (_, message_id)) :: rest =>
        let r := initiate_work_for_message s.store message_id env.rid env.sendOk
        let m1 := dequeue_insert s.work_request_map message_id r.work_request
        some ({ s with
                work_request_map := m1
                store := r.store
                pendingDequeues := add_dequeue cfg m1 s.pendingDequeues
                donebuf := rest
                status := statusOf r.err }, r.fx)
      | .received resp :: rest =>
        let r := process_worker_response env s.work_request_map s.store resp
        let nD := if s.pendingDequeues + s.pendingReceives = 0 then
            add_dequeue cfg r.work_request_map s.pendingDequeues
          else s.pendingDequeues
        some ({ s with
                work_request_map := r.work_request_map
                store := r.store
                pendingDequeues := nD
                pendingReceives := s.pendingReceives + 1
                donebuf := rest
                status := statusOf r.err }, r.fx)
  else none

/-- Run a list of environment decisions; stops at the first disabled event. -/
def handle_worker_run (cfg : WorkerConfig) (s : LoopState) :
    List LoopEvent → LoopState × List Effect
  | [] => (s, [])
  | ev :: evs =>
    match handle_worker_step cfg s ev with
    | none => (s, [])
    | some (s1, fx) =>
      let r := handle_worker_run cfg s1 evs
      (r.1, fx ++ r.2)

/-- A state the loop can actually be in, starting from `s0`. -/
def ReachableFrom (cfg : WorkerConfig) (s0 s : LoopState) : Prop :=
  ∃ evs : List LoopEvent, (handle_worker_run cfg s0 evs).1 = s

/-! ## Recovery (the `except Exception` block) and cleanup (the `finally` block) -/

/-- Failure injection for the per-entry `try` of the recovery loop. -/
inductive RecoveryFailure
  | ok
  | failReset
  | failEnqueue
  | failAbort
deriving DecidableEq

/-- Recovery of a single remaining ledger entry: reset and re-enqueue when no
partial response was observed, abort with the terminating error's message
otherwise.  An injected exception is caught by the per-entry `except` and cuts
this entry's effects short without affecting other entries. -/
def recover_entry (reason : String) (c : WorkRequestContainer)
    (f : RecoveryFailure) : List Effect :=
  if c.num_responses = 0 then
    match f with
    | .failReset => []
    | .failEnqueue => [.resetWork c.message_id]
    | _ => [.resetWork c.message_id, .enqueueWork c.message_id]
  else
    match f with
    | .failAbort => []
    | _ => [.abortWork c.message_id reason]

/-- The `for container in work_request_map.values()` recovery loop, with one
failure injection per entry. -/
def recover_work_requests : WorkRequestContainerMap → String → List RecoveryFailure → List Effect
  | [], _, _ => []
  | p :: rest, reason, fs =>
    recover_entry reason p.2 (fs.headD .ok) ++ recover_work_requests rest reason fs.tail

/-- Failure injections for the individually guarded cleanup steps of the
`finally` block. -/
structure CleanupFailures where
  failCloseRedis : Bool := false
  failDeleteSession : Bool := false
  failCancel : List Bool := []
  failCloseWebsocket : Bool := false
deriving DecidableEq

/-- `for ftr in pending_futures: try ftr.cancel() ...`, one guarded cancel per
still-pending future. -/
def cancel_pending_futures : Nat → List Bool → List Effect
  | 0, _ => []
  | n + 1, fs =>
    (if fs.headD false then [] else [Effect.cancelFuture]) ++ cancel_pending_futures n fs.tail

/-- The `finally` block of `handle_worker`: close the dedicated queue
connection, delete the worker session, cancel every pending future, close the
websocket; each step individually guarded by `try/except`. -/
def cleanup_finally (nPending : Nat) (cf : CleanupFailures) : List Effect :=
  (if cf.failCloseRedis then [] else [Effect.closeRedis])
    ++ (if cf.failDeleteSession then [] else [Effect.deleteSession])
    ++ cancel_pending_futures nPending cf.failCancel
    ++ (if cf.failCloseWebsocket then [] else [Effect.closeWebsocket])

/-- Termination of `handle_worker`: the `except Exception` recovery block runs
only for `Exception`-typed errors (a `BaseException`-only signal such as
`asyncio.CancelledError` skips it), then the `finally` cleanup always runs. -/
def handle_worker_termination (e : PyError) (m : WorkRequestContainerMap)
    (recFails : List RecoveryFailure) (nPending : Nat) (cf : CleanupFailures) : List Effect :=
  (match e with
   | .exc err => recover_work_requests m (errMsg err) recFails
   | .cancelled => [])
    ++ cleanup_finally nPending cf

/-! ## Basic lemmas about the store and the ledger -/

def midsOf (m : WorkRequestContainerMap) : List String :=
  m.map (fun p => p.2.message_id)

def keysOf (m : WorkRequestContainerMap) : List String :=
  m.map (fun p => p.1)

lemma storeGet_storeSet_self (st : Store) (k : String) (v : MsgState) :
    storeGet (storeSet st k v) k = v := by
  induction st with
  | nil => simp [storeSet, storeGet]
  | cons p rest ih =>
    obtain ⟨a, w⟩ := p
    by_cases h : a = k
    · subst h; simp [storeSet, storeGet]
    · simp [storeSet, storeGet, h, ih]

lemma storeGet_storeSet_ne (st : Store) (k k' : String) (v : MsgState) (h : k ≠ k') :
    storeGet (storeSet st k v) k' = storeGet st k' := by
  induction st with
  | nil => simp [storeSet, storeGet, h]
  | cons p rest ih =>
    obtain ⟨a, w⟩ := p
    by_cases ha : a = k
    · subst ha; simp [storeSet, storeGet, h, ih]
    · by_cases ha' : a = k'
      · subst ha'; simp [storeSet, storeGet, ha]
      · simp [storeSet, storeGet, ha, ha', ih]

lemma mapLookup_mem (m : WorkRequestContainerMap) (rid : String) (c : WorkRequestContainer)
    (h : mapLookup m rid = some c) : (rid, c) ∈ m := by
  induction m with
  | nil => simp [mapLookup] at h
  | cons p rest ih =>
    obtain ⟨k, v⟩ := p
    by_cases hk : k = rid
    · subst hk
      simp [mapLookup] at h
      subst h
      exact List.mem_cons_self _ _
    · simp [mapLookup, hk] at h
      exact List.mem_cons_of_mem _ (ih h)

lemma mem_mapInsert (m : WorkRequestContainerMap) (rid : String) (c : WorkRequestContainer)
    (p : String × WorkRequestContainer) (h : p ∈ mapInsert m rid c) :
    p = (rid, c) ∨ p ∈ m := by
  induction m with
  | nil => simpa [mapInsert] using h
  | cons q rest ih =>
    obtain ⟨k, v⟩ := q
    by_cases hk : k = rid
    · subst hk
      simp [mapInsert] at h
      rcases h with h | h
      · exact .inl (by simp [h])
      · exact .inr (List.mem_cons_of_mem _ h)
    · simp [mapInsert, hk] at h
      rcases h with h | h
      · exact .inr (by simp [h])
      · rcases ih h with h | h
        · exact .inl h
        · exact .inr (List.mem_cons_of_mem _ h)

lemma map_mapInsert_lookup {α : Type} (f : String × WorkRequestContainer → α)
    (m : WorkRequestContainerMap) (rid : String) (c c2 : WorkRequestContainer)
    (h : mapLookup m rid = some c) (hf : f (rid, c2) = f (rid, c)) :
    (mapInsert m rid c2).map f = m.map f := by
  induction m with
  | nil => simp [mapLookup] at h
  | cons p rest ih =>
    obtain ⟨k, v⟩ := p
    by_cases hk : k = rid
    · subst hk
      simp [mapLookup] at h
      subst h
      simp [mapInsert, hf]
    · simp [mapLookup, hk] at h
      simp [mapInsert, hk, ih h]

lemma mem_midsOf_mapInsert (m : WorkRequestContainerMap) (rid : String)
    (c : WorkRequestContainer) (x : String) (h : x ∈ midsOf (mapInsert m rid c)) :
    x = c.message_id ∨ x ∈ midsOf m := by
  simp only [midsOf, List.mem_map] at h
  obtain ⟨p, hp, hx⟩ := h
  rcases mem_mapInsert m rid c p hp with h | h
  · subst h; exact .inl hx.symm
  · exact .inr (by simp only [midsOf, List.mem_map]; exact ⟨p, h, hx⟩)

lemma mem_keysOf_mapInsert (m : WorkRequestContainerMap) (rid : String)
    (c : WorkRequestContainer) (x : String) (h : x ∈ keysOf (mapInsert m rid c)) :
    x = rid ∨ x ∈ keysOf m := by
  simp only [keysOf, List.mem_map] at h
  obtain ⟨p, hp, hx⟩ := h
  rcases mem_mapInsert m rid c p hp with h | h
  · subst h; exact .inl hx.symm
  · exact .inr (by simp only [keysOf, List.mem_map]; exact ⟨p, h, hx⟩)

lemma midsOf_nodup_mapInsert (m : WorkRequestContainerMap) (rid : String)
    (c : WorkRequestContainer) (hn : (midsOf m).Nodup) (hm : c.message_id ∉ midsOf m) :
    (midsOf (mapInsert m rid c)).Nodup := by
  induction m with
  | nil => simp [mapInsert, midsOf]
  | cons p rest ih =>
    obtain ⟨k, v⟩ := p
    simp only [midsOf, List.map_cons, List.nodup_cons, List.mem_cons, not_or] at hn hm
    by_cases hk : k = rid
    · subst hk
      rw [show mapInsert ((k, v) :: rest) k c = (k, c) :: rest from by simp [mapInsert]]
      simp only [midsOf, List.map_cons, List.nodup_cons]
      exact ⟨fun hx => hm.2 hx, hn.2⟩
    · simp only [mapInsert, if_neg hk, midsOf, List.map_cons, List.nodup_cons]
      refine ⟨?_, ih hn.2 hm.2⟩
      intro hx
      rcases mem_midsOf_mapInsert rest rid c _ hx with h | h
      · exact hm.1 h.symm
      · exact hn.1 h

lemma keysOf_nodup_mapInsert (m : WorkRequestContainerMap) (rid : String)
    (c : WorkRequestContainer) (hn : (keysOf m).Nodup) :
    (keysOf (mapInsert m rid c)).Nodup := by
  induction m with
  | nil => simp [mapInsert, keysOf]
  | cons p rest ih =>
    obtain ⟨k, v⟩ := p
    simp only [keysOf, List.map_cons, List.nodup_cons] at hn
    by_cases hk : k = rid
    · subst hk
      rw [show mapInsert ((k, v) :: rest) k c = (k, c) :: rest from by simp [mapInsert]]
      simp only [keysOf, List.map_cons, List.nodup_cons]
      exact ⟨hn.1, hn.2⟩
    · simp only [mapInsert, if_neg hk, keysOf, List.map_cons, List.nodup_cons]
      refine ⟨?_, ih hn.2⟩
      intro hx
      rcases mem_keysOf_mapInsert rest rid c _ hx with h | h
      · exact hk h
      · exact hn.1 h

lemma mapErase_sublist (m : WorkRequestContainerMap) (rid : String) :
    List.Sublist (mapErase m rid) m := by
  induction m with
  | nil => simp [mapErase]
  | cons p rest ih =>
    obtain ⟨k, v⟩ := p
    by_cases hk : k = rid
    · simp only [mapErase, if_pos hk]
      exact List.Sublist.cons _ (List.Sublist.refl _)
    · simp only [mapErase, if_neg hk]
      exact List.Sublist.cons₂ _ ih

lemma mapLookup_decomp (m : WorkRequestContainerMap) (rid : String)
    (c : WorkRequestContainer) (h : mapLookup m rid = some c) :
    ∃ l1 l2, m = l1 ++ (rid, c) :: l2 ∧ mapErase m rid = l1 ++ l2 := by
  induction m with
  | nil => simp [mapLookup] at h
  | cons p rest ih =>
    obtain ⟨k, v⟩ := p
    by_cases hk : k = rid
    · subst hk
      simp [mapLookup] at h
      subst h
      exact ⟨[], rest, by simp [mapErase]⟩
    · simp [mapLookup, hk] at h
      obtain ⟨l1, l2, hm, he⟩ := ih h
      exact ⟨(k, v) :: l1, l2, by simp [hm], by simp [mapErase, hk, he]⟩

/-! ## Claim C8: ledger lookup by request id -/

/-- C8: `get_work_request_container` raises `WorkRequestNotFound` exactly when
the request id is the Python `None` or is absent from the ledger; when present
it returns that entry (and, being a pure read, leaves the ledger unchanged). -/
theorem c8_request_lookup (m : WorkRequestContainerMap) (request_id : Option String) :
    (request_id = none → get_work_request_container m request_id = .error ⟨none⟩) ∧
    (∀ r, request_id = some r → mapLookup m r = none →
      get_work_request_container m request_id = .error ⟨some r⟩) ∧
    (∀ r c, request_id = some r → mapLookup m r = some c →
      get_work_request_container m request_id = .ok c) ∧
    (∀ c, get_work_request_container m request_id = .ok c →
      ∃ r, request_id = some r ∧ mapLookup m r = some c) := by
  refine ⟨?_, ?_, ?_, ?_⟩
  · rintro rfl; rfl
  · rintro r rfl h; simp [get_work_request_container, h]
  · rintro r c rfl h; simp [get_work_request_container, h]
  · intro c h
    cases hq : request_id with
    | none => rw [hq] at h; simp [get_work_request_container] at h
    | some r =>
      rw [hq] at h
      cases hl : mapLookup m r with
      | none => rw [get_work_request_container, hl] at h; cases h
      | some c2 =>
        rw [get_work_request_container, hl] at h
        cases h
        exact ⟨r, rfl, hl⟩

def c8Container : WorkRequestContainer :=
  { work_request := ⟨"r1"⟩, message_id := "m1" }

theorem c8_request_lookup_witness :
    get_work_request_container [("r1", c8Container)] (some "r1") = .ok c8Container :=
  (c8_request_lookup [("r1", c8Container)] (some "r1")).2.2.1 "r1" c8Container rfl (by
    simp [mapLookup])

/-! ## Claim C10: generated_text removes the entry only after both external
steps succeeded -/

/-- C10: in `handle_generated_text_response` the ledger entry is deleted only
after both the `complete_work` transaction and the finished-notification
enqueue succeeded; if either raises, the entry (with its `num_responses`
unchanged) is still in the ledger, so the recovery pass at termination still
sees it.  Moreover, when only the enqueue fails, the store transaction has
already committed while the entry remains. -/
theorem c10_generated_text_removal (fc fe : Bool) (m : WorkRequestContainerMap)
    (st : Store) (resp : WorkerResponse) (r : String) (c : WorkRequestContainer)
    (hrid : resp.request_id = some r) (hc : mapLookup m r = some c) :
    ((fc = true ∨ fe = true) →
      (handle_generated_text_response fc fe m st resp).work_request_map = m ∧
      (handle_generated_text_response fc fe m st resp).err = some .externalFailure ∧
      mapLookup (handle_generated_text_response fc fe m st resp).work_request_map r = some c) ∧
    (fc = true → (handle_generated_text_response fc fe m st resp).store = st) ∧
    (fc = false → fe = true →
      (handle_generated_text_response fc fe m st resp).store = complete_work st c.message_id ∧
      (handle_generated_text_response fc fe m st resp).fx =
        [.completeWork c.message_id resp.text]) ∧
    (fc = false → fe = false →
      (handle_generated_text_response fc fe m st resp).work_request_map = mapErase m r ∧
      (handle_generated_text_response fc fe m st resp).err = none ∧
      (handle_generated_text_response fc fe m st resp).fx =
        [.completeWork c.message_id resp.text,
         .enqueueFinished c.message_id resp.text]) := by
  have hget : get_work_request_container m (some r) = Except.ok c := by
    simp [get_work_request_container, hc]
  refine ⟨?_, ?_, ?_, ?_⟩
  · rintro (rfl | rfl)
    · simp [handle_generated_text_response, hrid, hget, hc]
    · cases fc <;> simp [handle_generated_text_response, hrid, hget, hc]
  · rintro rfl
    simp [handle_generated_text_response, hrid, hget]
  · rintro rfl rfl
    simp [handle_generated_text_response, hrid, hget]
  · rintro rfl rfl
    simp [handle_generated_text_response, hrid, hget]

def c10Map : WorkRequestContainerMap :=
  [("r1", { work_request := ⟨"r1"⟩, message_id := "m1", num_responses := 3 })]

def c10Resp : WorkerResponse :=
  { response_type := "generated_text", request_id := some "r1", text := "out" }

theorem c10_generated_text_removal_witness :
    (handle_generated_text_response false true c10Map [] c10Resp).work_request_map = c10Map ∧
    (handle_generated_text_response false true c10Map [] c10Resp).err = some .externalFailure ∧
    mapLookup (handle_generated_text_response false true c10Map [] c10Resp).work_request_map "r1" =
      some { work_request := ⟨"r1"⟩, message_id := "m1", num_responses := 3 } :=
  (c10_generated_text_removal false true c10Map [] c10Resp "r1"
    { work_request := ⟨"r1"⟩, message_id := "m1", num_responses := 3 }
    rfl (by simp [c10Map, mapLookup])).1 (.inr rfl)

/-! ## Claim C1: the recovery partition -/

lemma mem_recover_work_requests (reason : String) (m : WorkRequestContainerMap)
    (p : String × WorkRequestContainer) (hp : p ∈ m) (x : Effect)
    (hx : x ∈ recover_entry reason p.2 .ok) :
    x ∈ recover_work_requests m reason (List.replicate m.length .ok) := by
  induction m with
  | nil => cases hp
  | cons q rest ih =>
    simp only [List.length_cons, List.replicate_succ, recover_work_requests,
      List.headD_cons, List.tail_cons, List.mem_append]
    rcases List.mem_cons.mp hp with h | h
    · subst h; exact .inl hx
    · exact .inr (ih h)

/-- C1: for every entry remaining in the ledger at termination, the recovery
policy yields exactly one of the two outcomes, decided solely by
`num_responses == 0`: zero responses gives `reset_work` followed by re-enqueue
of the message id (and no abort); a positive count gives an abort whose reason
is the terminating error's message (and no re-enqueue).  The final conjunct
ties the recovery pass to `Exception`-typed loop termination. -/
theorem c1_recovery_partition (reason : String) (c : WorkRequestContainer) :
    ((Effect.enqueueWork c.message_id ∈ recover_entry reason c .ok) ↔ c.num_responses = 0) ∧
    ((Effect.abortWork c.message_id reason ∈ recover_entry reason c .ok) ↔
      c.num_responses ≠ 0) ∧
    (c.num_responses = 0 →
      recover_entry reason c .ok = [.resetWork c.message_id, .enqueueWork c.message_id]) ∧
    (c.num_responses ≠ 0 → recover_entry reason c .ok = [.abortWork c.message_id reason]) ∧
    (∀ (m : WorkRequestContainerMap) (p : String × WorkRequestContainer), p ∈ m →
      ∀ x ∈ recover_entry reason p.2 .ok,
        x ∈ recover_work_requests m reason (List.replicate m.length .ok)) ∧
    (∀ (e : LoopError) (m : WorkRequestContainerMap) (fs : List RecoveryFailure)
        (n : Nat) (cf : CleanupFailures),
      handle_worker_termination (.exc e) m fs n cf =
        recover_work_requests m (errMsg e) fs ++ cleanup_finally n cf) := by
  refine ⟨?_, ?_, ?_, ?_, ?_, ?_⟩
  · by_cases h : c.num_responses = 0 <;> simp [recover_entry, h]
  · by_cases h : c.num_responses = 0 <;> simp [recover_entry, h]
  · intro h; simp [recover_entry, h]
  · intro h; simp [recover_entry, h]
  · exact fun m p hp x hx => mem_recover_work_requests reason m p hp x hx
  · intro e m fs n cf; rfl

def c1Container : WorkRequestContainer :=
  { work_request := ⟨"r1"⟩, message_id := "m1" }

theorem c1_recovery_partition_witness :
    recover_entry "boom" c1Container .ok =
      [.resetWork c1Container.message_id, .enqueueWork c1Container.message_id] :=
  (c1_recovery_partition "boom" c1Container).2.2.1 rfl

/-! ## Claim C4: routing completeness -/

lemma route_response_unknown_of_other (t : String)
    (h1 : t ≠ "pong") (h2 : t ≠ "token") (h3 : t ≠ "generated_text")
    (h4 : t ≠ "error") (h5 : t ≠ "general_error") :
    route_response t = .unknownPath := by
  simp [route_response, h1, h2, h3, h4, h5]

/-- C4: every inbound worker response routes through exactly one handling path
determined by its `response_type` tag: the five defined kinds map to five
distinct paths, any other tag maps to the unknown path, processing an unknown
tag raises `RuntimeError` without touching ledger or store, and the loop step
on such a response ends in the failed (terminated) status. -/
theorem c4_routing_completeness :
    (route_response "pong" = .pongPath ∧ route_response "token" = .tokenPath ∧
     route_response "generated_text" = .generatedTextPath ∧
     route_response "error" = .errorPath ∧
     route_response "general_error" = .generalErrorPath) ∧
    (∀ t, route_response t ≠ .unknownPath →
      t = "pong" ∨ t = "token" ∨ t = "generated_text" ∨ t = "error" ∨ t = "general_error") ∧
    (∀ (env : EnvChoice) (m : WorkRequestContainerMap) (st : Store) (resp : WorkerResponse),
      route_response resp.response_type = .unknownPath →
      process_worker_response env m st resp =
        ⟨m, st, [], some (.unknownResponseType resp.response_type)⟩) ∧
    (∀ (cfg : WorkerConfig) (s : LoopState) (env : EnvChoice) (resp : WorkerResponse)
        (rest : List FutureResult) (s1 : LoopState) (fx : List Effect),
      s.status = .running → s.donebuf = .received resp :: rest →
      route_response resp.response_type = .unknownPath →
      handle_worker_step cfg s (.processNext env) = some (s1, fx) →
      s1.status = .failed (.exc (.unknownResponseType resp.response_type)) ∧ fx = []) := by
  have hproc : ∀ (env : EnvChoice) (m : WorkRequestContainerMap) (st : Store)
      (resp : WorkerResponse), route_response resp.response_type = .unknownPath →
      process_worker_response env m st resp =
        ⟨m, st, [], some (.unknownResponseType resp.response_type)⟩ := by
    intro env m st resp h
    rw [route_response] at h
    by_cases h1 : resp.response_type = "pong"
    · simp [h1] at h
    · rw [if_neg h1] at h
      by_cases h2 : resp.response_type = "token"
      · simp [h2] at h
      · rw [if_neg h2] at h
        by_cases h3 : resp.response_type = "generated_text"
        · simp [h3] at h
        · rw [if_neg h3] at h
          by_cases h4 : resp.response_type = "error"
          · simp [h4] at h
          · rw [if_neg h4] at h
            by_cases h5 : resp.response_type = "general_error"
            · simp [h5] at h
            · simp [process_worker_response, h1, h2, h3, h4, h5]
  refine ⟨⟨rfl, rfl, rfl, rfl, rfl⟩, ?_, hproc, ?_⟩
  · intro t h
    by_cases h1 : t = "pong"
    · exact .inl h1
    · by_cases h2 : t = "token"
      · exact .inr (.inl h2)
      · by_cases h3 : t = "generated_text"
        · exact .inr (.inr (.inl h3))
        · by_cases h4 : t = "error"
          · exact .inr (.inr (.inr (.inl h4)))
          · by_cases h5 : t = "general_error"
            · exact .inr (.inr (.inr (.inr h5)))
            · exact absurd (route_response_unknown_of_other t h1 h2 h3 h4 h5) h
  · intro cfg s env resp rest s1 fx hrun hbuf hroute hstep
    rw [handle_worker_step, if_pos hrun, hbuf] at hstep
    simp only [hproc env s.work_request_map s.store resp hroute, Option.some.injEq,
      Prod.mk.injEq] at hstep
    obtain ⟨h1, h2⟩ := hstep
    subst h1
    exact ⟨rfl, h2.symm⟩

def c4Resp : WorkerResponse := { response_type := "bogus" }

theorem c4_routing_completeness_witness :
    process_worker_response {} [] [] c4Resp =
      ⟨[], [], [], some (.unknownResponseType c4Resp.response_type)⟩ :=
  c4_routing_completeness.2.2.1 {} [] [] c4Resp (by
    apply route_response_unknown_of_other <;> decide)

/-! ## Step-shape lemmas for the loop -/

lemma handle_worker_step_received (cfg : WorkerConfig) (s : LoopState) (env : EnvChoice)
    (resp : WorkerResponse) (rest : List FutureResult)
    (hrun : s.status = .running) (hbuf : s.donebuf = .received resp :: rest) :
    handle_worker_step cfg s (.processNext env) =
      some (let r := process_worker_response env s.work_request_map s.store resp
            ({ s with
               work_request_map := r.work_request_map
               store := r.store
               pendingDequeues := if s.pendingDequeues + s.pendingReceives = 0 then
                   add_dequeue cfg r.work_request_map s.pendingDequeues
                 else s.pendingDequeues
               pendingReceives := s.pendingReceives + 1
               donebuf := rest
               status := statusOf r.err }, r.fx)) := by
  rw [handle_worker_step, if_pos hrun, hbuf]

lemma handle_worker_step_dequeued (cfg : WorkerConfig) (s : LoopState) (env : EnvChoice)
    (qn mid : String) (rest : List FutureResult)
    (hrun : s.status = .running) (hbuf : s.donebuf = .dequeued (some (qn, mid)) :: rest) :
    handle_worker_step cfg s (.processNext env) =
      some (let r := initiate_work_for_message s.store mid env.rid env.sendOk
            let m1 := dequeue_insert s.work_request_map mid r.work_request
            ({ s with
               work_request_map := m1
               store := r.store
               pendingDequeues := add_dequeue cfg m1 s.pendingDequeues
               donebuf := rest
               status := statusOf r.err }, r.fx)) := by
  rw [handle_worker_step, if_pos hrun, hbuf]

lemma length_lt_of_add_dequeue (cfg : WorkerConfig) (M : WorkRequestContainerMap) (n : Nat)
    (h : n < add_dequeue cfg M n) : M.length < cfg.max_parallel_requests := by
  by_cases hc : M.length < cfg.max_parallel_requests
  · exact hc
  · rw [add_dequeue, if_neg hc] at h
    exact absurd h (lt_irrefl n)

/-! ## Claim C5: transmission failure rolls back and re-enqueues -/

/-- C5: when the websocket transmission of the work request fails after the
message was marked started, the loop step performs `reset_work` on that
message and re-enqueues its id on the worker's queue (in that order, after
the `start_work` effect), raises the original failure to the loop's top-level
error handler (status becomes failed), and creates no in-flight ledger entry
(the `work_request_map` field is unchanged); the `finally` of the dequeue arm
still runs `_add_dequeue`. -/
theorem c5_transmission_failure_rollback (cfg : WorkerConfig) (s : LoopState)
    (env : EnvChoice) (qn mid : String) (rest : List FutureResult)
    (hrun : s.status = .running)
    (hbuf : s.donebuf = .dequeued (some (qn, mid)) :: rest)
    (hsend : env.sendOk = false)
    (hpend : storeGet s.store mid = .pending) :
    handle_worker_step cfg s (.processNext env) =
      some ({ s with
              store := reset_work (storeSet s.store mid .started) mid
              pendingDequeues := add_dequeue cfg s.work_request_map s.pendingDequeues
              donebuf := rest
              status := .failed (.exc (.transmissionFailed mid)) },
            [.startWork mid, .resetWork mid, .enqueueWork mid]) := by
  rw [handle_worker_step_dequeued cfg s env qn mid rest hrun hbuf]
  simp [initiate_work_for_message, start_work, hpend, hsend, statusOf, dequeue_insert]

def c5S : LoopState :=
  { work_request_map := []
    store := []
    pendingDequeues := 0
    pendingReceives := 1
    donebuf := [.dequeued (some ("q", "m1"))]
    status := .running }

def c5Cfg : WorkerConfig := ⟨"h", 1⟩

theorem c5_transmission_failure_rollback_witness :
    handle_worker_step c5Cfg c5S (.processNext { sendOk := false }) =
      some ({ c5S with
              store := reset_work (storeSet c5S.store "m1" .started) "m1"
              pendingDequeues := add_dequeue c5Cfg c5S.work_request_map c5S.pendingDequeues
              donebuf := []
              status := .failed (.exc (.transmissionFailed "m1")) },
            [.startWork "m1", .resetWork "m1", .enqueueWork "m1"]) :=
  c5_transmission_failure_rollback c5Cfg c5S { sendOk := false } "q" "m1" [] rfl rfl rfl rfl

/-! ## Claim C6: re-arming after a routed receive -/

/-- C6: after routing any completed receive through the response router, the
loop re-arms a dequeue operation if and only if the pending-operation set is
empty at that moment and the (post-routing) ledger is below capacity, and it
always re-arms one receive operation; both re-arms happen in the `finally`,
hence also when the handler raised (the statement holds for every environment
choice and every response, including those whose processing errs, as the
status conjunct records). -/
theorem c6_receive_rearm (cfg : WorkerConfig) (s : LoopState) (env : EnvChoice)
    (resp : WorkerResponse) (rest : List FutureResult) (s1 : LoopState) (fx : List Effect)
    (hrun : s.status = .running) (hbuf : s.donebuf = .received resp :: rest)
    (hstep : handle_worker_step cfg s (.processNext env) = some (s1, fx)) :
    s1.pendingReceives = s.pendingReceives + 1 ∧
    s1.pendingDequeues = (if s.pendingDequeues + s.pendingReceives = 0 ∧
        (process_worker_response env s.work_request_map s.store resp).work_request_map.length <
          cfg.max_parallel_requests
      then s.pendingDequeues + 1 else s.pendingDequeues) ∧
    s1.work_request_map =
      (process_worker_response env s.work_request_map s.store resp).work_request_map ∧
    s1.status = statusOf (process_worker_response env s.work_request_map s.store resp).err := by
  rw [handle_worker_step_received cfg s env resp rest hrun hbuf, Option.some.injEq,
    Prod.mk.injEq] at hstep
  obtain ⟨h1, _⟩ := hstep
  subst h1
  refine ⟨rfl, ?_, rfl, rfl⟩
  by_cases hA : s.pendingDequeues + s.pendingReceives = 0 <;>
    by_cases hB : (process_worker_response env s.work_request_map s.store resp).work_request_map.length <
        cfg.max_parallel_requests <;>
    simp [add_dequeue, hA, hB]

def c6S : LoopState :=
  { work_request_map := []
    store := []
    pendingDequeues := 0
    pendingReceives := 0
    donebuf := [.received { response_type := "pong" }]
    status := .running }

def c6Cfg : WorkerConfig := ⟨"h", 1⟩

def c6Res : LoopState × List Effect :=
  (handle_worker_step c6Cfg c6S (.processNext {})).getD (c6S, [])

theorem c6_receive_rearm_witness :
    c6Res.1.pendingReceives = c6S.pendingReceives + 1 :=
  (c6_receive_rearm c6Cfg c6S {} { response_type := "pong" } [] c6Res.1 c6Res.2
    rfl rfl (by decide)).1

/-! ## Claim C9: a None dequeue result terminates the loop -/

/-- C9: when a pending dequeue completes with the queue API's none-on-timeout
result, the loop raises `RuntimeError` and terminates: the step only consumes
the done future and flips the status to failed, re-arming nothing and leaving
the ledger untouched (the `raise` sits before the `try/finally` of the
dequeue arm); the error is an `Exception`, so the subsequent termination
handler runs recovery over all outstanding ledger entries. -/
theorem c9_none_dequeue_terminates (cfg : WorkerConfig) (s : LoopState) (env : EnvChoice)
    (rest : List FutureResult)
    (hrun : s.status = .running) (hbuf : s.donebuf = .dequeued none :: rest) :
    handle_worker_step cfg s (.processNext env) =
      some ({ s with donebuf := rest, status := .failed (.exc .queueReturnedNone) }, []) ∧
    (∀ (fs : List RecoveryFailure) (n : Nat) (cf : CleanupFailures),
      handle_worker_termination (.exc .queueReturnedNone) s.work_request_map fs n cf =
        recover_work_requests s.work_request_map (errMsg .queueReturnedNone) fs
          ++ cleanup_finally n cf) := by
  constructor
  · rw [handle_worker_step, if_pos hrun, hbuf]
  · intro fs n cf; rfl

def c9S : LoopState :=
  { work_request_map := [("r1", { work_request := ⟨"r1"⟩, message_id := "m1" })]
    store := [("m1", .started)]
    pendingDequeues := 0
    pendingReceives := 1
    donebuf := [.dequeued none]
    status := .running }

theorem c9_none_dequeue_terminates_witness :
    handle_worker_step ⟨"h", 1⟩ c9S (.processNext {}) =
      some ({ c9S with donebuf := [], status := .failed (.exc .queueReturnedNone) }, []) :=
  (c9_none_dequeue_terminates ⟨"h", 1⟩ c9S {} [] rfl rfl).1

/-! ## Claim C2: the capacity invariant

The claimed invariant "a pending dequeue exists only while the ledger is
strictly below `max_parallel_requests`" is falsified by a reachable
execution: when a receive and a dequeue complete in the same `asyncio.wait`
round and the receive is iterated first, the receive arm (pending set empty)
arms a dequeue and then the dequeue arm's `finally` arms a second one; one of
them later completes and fills the ledger to the cap while the other is still
pending.  What does hold is the arming-time guard of `_add_dequeue`.
-/

def cfg2 : WorkerConfig := ⟨"h", 2⟩

def gtextE : WorkerResponse :=
  { response_type := "generated_text", request_id := some "rE", text := "t" }

def c2Events : List LoopEvent :=
  [ .waitCollect [.dequeued (some ("q", "mE"))]
  , .processNext { rid := "rE" }
  , .waitCollect [.received gtextE, .dequeued (some ("q", "m1"))]
  , .processNext {}
  , .processNext { rid := "r1" }
  , .waitCollect [.dequeued (some ("q", "m2"))]
  , .processNext { rid := "r2" } ]

def c2BadState : LoopState := (handle_worker_run cfg2 (initState cfg2 []) c2Events).1

/-- C2 counterexample: a reachable state of the loop (still running) in which
a dequeue operation is pending while the ledger already holds
`max_parallel_requests` entries, refuting "a pending dequeue operation exists
only if `len(ledger) < max_parallel_requests`" at every point. -/
theorem c2_capacity_invariant_counterexample :
    ReachableFrom cfg2 (initState cfg2 []) c2BadState ∧
    c2BadState.status = .running ∧
    0 < c2BadState.pendingDequeues ∧
    ¬ (c2BadState.work_request_map.length < cfg2.max_parallel_requests) :=
  ⟨⟨c2Events, rfl⟩, by decide, by decide, by decide⟩

/-- C2 amended: every arming of a dequeue happens only at a moment when the
ledger is strictly below `max_parallel_requests` (both at loop entry and at
every step that increases the number of pending dequeues); an already-armed
dequeue may however remain pending after the ledger fills up, so the claimed
all-times invariant fails. -/
theorem c2_dequeue_armed_only_under_capacity :
    (∀ (cfg : WorkerConfig) (st : Store),
      0 < (initState cfg st).pendingDequeues → 0 < cfg.max_parallel_requests) ∧
    (∀ (cfg : WorkerConfig) (s : LoopState) (ev : LoopEvent) (s1 : LoopState)
        (fx : List Effect),
      handle_worker_step cfg s ev = some (s1, fx) →
      s.pendingDequeues < s1.pendingDequeues →
      s1.work_request_map.length < cfg.max_parallel_requests) := by
  constructor
  · intro cfg st h
    have h2 : (0 : Nat) < add_dequeue cfg [] 0 := h
    simpa using length_lt_of_add_dequeue cfg [] 0 h2
  · intro cfg s ev s1 fx h harm
    rw [handle_worker_step.eq_def] at h
    split at h
    · split at h
      · -- waitTimeout
        split at h
        · rw [Option.some.injEq, Prod.mk.injEq] at h
          obtain ⟨h1, _⟩ := h
          subst h1
          exact absurd harm (lt_irrefl _)
        · exact Option.noConfusion h
      · -- disconnect
        split at h
        · rw [Option.some.injEq, Prod.mk.injEq] at h
          obtain ⟨h1, _⟩ := h
          subst h1
          exact absurd harm (lt_irrefl _)
        · exact Option.noConfusion h
      · -- waitCollect rs
        rename_i rs
        split at h
        · rw [Option.some.injEq, Prod.mk.injEq] at h
          obtain ⟨h1, _⟩ := h
          subst h1
          replace harm : s.pendingDequeues < s.pendingDequeues - countDequeues rs := harm
          omega
        · exact Option.noConfusion h
      · -- processNext env
        rename_i env
        split at h
        · exact Option.noConfusion h
        · -- dequeued none
          rw [Option.some.injEq, Prod.mk.injEq] at h
          obtain ⟨h1, _⟩ := h
          subst h1
          exact absurd harm (lt_irrefl _)
        · -- dequeued (some (qn, mid))
          rw [Option.some.injEq, Prod.mk.injEq] at h
          obtain ⟨h1, _⟩ := h
          subst h1
          exact length_lt_of_add_dequeue cfg _ _ harm
        · -- received resp
          rename_i resp rest hbuf
          rw [Option.some.injEq, Prod.mk.injEq] at h
          obtain ⟨h1, _⟩ := h
          subst h1
          replace harm : s.pendingDequeues <
              (if s.pendingDequeues + s.pendingReceives = 0 then
                add_dequeue cfg
                  (process_worker_response env s.work_request_map s.store resp).work_request_map
                  s.pendingDequeues
              else s.pendingDequeues) := harm
          by_cases hA : s.pendingDequeues + s.pendingReceives = 0
          · rw [if_pos hA] at harm
            exact length_lt_of_add_dequeue cfg _ _ harm
          · rw [if_neg hA] at harm
            exact absurd harm (lt_irrefl _)
    · exact Option.noConfusion h

def c2wPre : LoopState :=
  (handle_worker_run cfg2 (initState cfg2 []) [.waitCollect [.dequeued (some ("q", "mE"))]]).1

def c2wStep : LoopState × List Effect :=
  (handle_worker_step cfg2 c2wPre (.processNext { rid := "rE" })).getD (c2wPre, [])

theorem c2_dequeue_armed_only_under_capacity_witness :
    c2wStep.1.work_request_map.length < cfg2.max_parallel_requests :=
  c2_dequeue_armed_only_under_capacity.2 cfg2 c2wPre (.processNext { rid := "rE" })
    c2wStep.1 c2wStep.2 (by decide) (by decide)

/-! ## Claim C7: ledger message-id uniqueness

The uniqueness of `message_id`s across in-flight entries rests on the Message
Store contract: `start_work` (modelled from the spec) succeeds only for a
pending message, while every in-flight entry's message is in the started
state while the loop runs.  The invariant below carries both facts, together
with key uniqueness of the dict.
-/

lemma statusOf_eq_running (e : Option LoopError) : statusOf e = .running ↔ e = none := by
  cases e <;> simp [statusOf]

lemma get_work_request_container_ok (m : WorkRequestContainerMap) (q : Option String)
    (c : WorkRequestContainer) (h : get_work_request_container m q = .ok c) :
    ∃ r, q = some r ∧ mapLookup m r = some c := by
  cases q with
  | none => simp [get_work_request_container] at h
  | some r =>
    cases hl : mapLookup m r with
    | none => rw [get_work_request_container, hl] at h; cases h
    | some c2 =>
      rw [get_work_request_container, hl] at h
      cases h
      exact ⟨r, rfl, hl⟩

lemma start_work_some (st : Store) (mid : String) (st1 : Store)
    (h : start_work st mid = some st1) :
    storeGet st mid = .pending ∧ st1 = storeSet st mid .started := by
  by_cases hc : storeGet st mid = .pending
  · rw [start_work, if_pos hc, Option.some.injEq] at h
    exact ⟨hc, h.symm⟩
  · rw [start_work, if_neg hc] at h
    cases h

/-- Well-formedness of a handler result: while no exception was raised, every
ledger entry's message is started in the store, and both the message ids and
the keys of the ledger are pairwise distinct. -/
def GoodHR (r : HResult) : Prop :=
  (r.err = none → ∀ p ∈ r.work_request_map, storeGet r.store p.2.message_id = .started) ∧
  (midsOf r.work_request_map).Nodup ∧ (keysOf r.work_request_map).Nodup

lemma good_erase_set (m : WorkRequestContainerMap) (st : Store) (r : String)
    (c : WorkRequestContainer) (v : MsgState) (hc : mapLookup m r = some c)
    (hall : ∀ p ∈ m, storeGet st p.2.message_id = .started)
    (hmid : (midsOf m).Nodup) :
    ∀ p ∈ mapErase m r, storeGet (storeSet st c.message_id v) p.2.message_id = .started := by
  intro p hp
  obtain ⟨l1, l2, hm, he⟩ := mapLookup_decomp m r c hc
  have hpm : p ∈ m := (mapErase_sublist m r).subset hp
  have hpl : p ∈ l1 ++ l2 := by rw [← he]; exact hp
  have hne : c.message_id ≠ p.2.message_id := by
    intro heq
    rw [hm] at hmid
    simp only [midsOf, List.map_append, List.map_cons] at hmid
    have hmid2 := List.nodup_middle.mp hmid
    have hnotin := (List.nodup_cons.mp hmid2).1
    apply hnotin
    rw [heq, ← List.map_append]
    exact List.mem_map_of_mem _ hpl
  rw [storeGet_storeSet_ne st c.message_id p.2.message_id v hne]
  exact hall p hpm

lemma good_token (f : Bool) (m : WorkRequestContainerMap) (st : Store)
    (resp : WorkerResponse)
    (hall : ∀ p ∈ m, storeGet st p.2.message_id = .started)
    (hmid : (midsOf m).Nodup) (hkey : (keysOf m).Nodup) :
    GoodHR (handle_token_response f m st resp) := by
  cases hget : get_work_request_container m resp.request_id with
  | error e =>
    have hres : handle_token_response f m st resp =
        ⟨m, st, [], some (.workRequestNotFound e.request_id)⟩ := by
      simp [handle_token_response, hget]
    rw [hres]
    exact ⟨fun hh => Option.noConfusion hh, hmid, hkey⟩
  | ok c =>
    obtain ⟨r, hq, hc⟩ := get_work_request_container_ok m resp.request_id c hget
    cases f with
    | true =>
      have hres : handle_token_response true m st resp = ⟨m, st, [], some .externalFailure⟩ := by
        simp [handle_token_response, hget]
      rw [hres]
      exact ⟨fun hh => Option.noConfusion hh, hmid, hkey⟩
    | false =>
      have hget2 : get_work_request_container m (some r) = Except.ok c := by
        rw [← hq]; exact hget
      have hres : handle_token_response false m st resp =
          ⟨mapInsert m r { c with num_responses := c.num_responses + 1 }, st,
           [.enqueueToken c.message_id], none⟩ := by
        simp [handle_token_response, hq, hget2]
      rw [hres]
      refine ⟨?_, ?_, ?_⟩
      · intro _ p hp
        rcases mem_mapInsert m r _ p hp with hpe | hpm
        · subst hpe
          exact hall (r, c) (mapLookup_mem m r c hc)
        · exact hall p hpm
      · simp only [midsOf] at hmid ⊢
        rw [map_mapInsert_lookup (fun p => p.2.message_id) m r c
          { c with num_responses := c.num_responses + 1 } hc rfl]
        exact hmid
      · simp only [keysOf] at hkey ⊢
        rw [map_mapInsert_lookup (fun p => p.1) m r c
          { c with num_responses := c.num_responses + 1 } hc rfl]
        exact hkey

lemma good_erase_result (m : WorkRequestContainerMap) (st : Store) (r : String)
    (c : WorkRequestContainer) (v : MsgState) (hc : mapLookup m r = some c)
    (hall : ∀ p ∈ m, storeGet st p.2.message_id = .started)
    (hmid : (midsOf m).Nodup) (hkey : (keysOf m).Nodup) :
    (∀ p ∈ mapErase m r, storeGet (storeSet st c.message_id v) p.2.message_id = .started) ∧
    (midsOf (mapErase m r)).Nodup ∧ (keysOf (mapErase m r)).Nodup := by
  refine ⟨good_erase_set m st r c v hc hall hmid, ?_, ?_⟩
  · simp only [midsOf] at hmid ⊢
    exact List.Nodup.sublist ((mapErase_sublist m r).map _) hmid
  · simp only [keysOf] at hkey ⊢
    exact List.Nodup.sublist ((mapErase_sublist m r).map _) hkey

lemma good_gtext (fc fe : Bool) (m : WorkRequestContainerMap) (st : Store)
    (resp : WorkerResponse)
    (hall : ∀ p ∈ m, storeGet st p.2.message_id = .started)
    (hmid : (midsOf m).Nodup) (hkey : (keysOf m).Nodup) :
    GoodHR (handle_generated_text_response fc fe m st resp) := by
  cases hget : get_work_request_container m resp.request_id with
  | error e =>
    have hres : handle_generated_text_response fc fe m st resp =
        ⟨m, st, [], some (.workRequestNotFound e.request_id)⟩ := by
      simp [handle_generated_text_response, hget]
    rw [hres]
    exact ⟨fun hh => Option.noConfusion hh, hmid, hkey⟩
  | ok c =>
    obtain ⟨r, hq, hc⟩ := get_work_request_container_ok m resp.request_id c hget
    cases fc with
    | true =>
      have hres : handle_generated_text_response true fe m st resp =
          ⟨m, st, [], some .externalFailure⟩ := by
        simp [handle_generated_text_response, hget]
      rw [hres]
      exact ⟨fun hh => Option.noConfusion hh, hmid, hkey⟩
    | false =>
      cases fe with
      | true =>
        have hres : handle_generated_text_response false true m st resp =
            ⟨m, complete_work st c.message_id, [.completeWork c.message_id resp.text],
             some .externalFailure⟩ := by
          simp [handle_generated_text_response, hget]
        rw [hres]
        exact ⟨fun hh => Option.noConfusion hh, hmid, hkey⟩
      | false =>
        have hget2 : get_work_request_container m (some r) = Except.ok c := by
          rw [← hq]; exact hget
        have hres : handle_generated_text_response false false m st resp =
            ⟨mapErase m r, complete_work st c.message_id,
             [.completeWork c.message_id resp.text,
              .enqueueFinished c.message_id resp.text], none⟩ := by
          simp [handle_generated_text_response, hq, hget2]
        rw [hres]
        have hg := good_erase_result m st r c .complete hc hall hmid hkey
        exact ⟨fun _ => hg.1, hg.2.1, hg.2.2⟩

lemma good_error_resp (fb : Bool) (m : WorkRequestContainerMap) (st : Store)
    (resp : WorkerResponse)
    (hall : ∀ p ∈ m, storeGet st p.2.message_id = .started)
    (hmid : (midsOf m).Nodup) (hkey : (keysOf m).Nodup) :
    GoodHR (handle_error_response fb m st resp) := by
  cases hget : get_work_request_container m resp.request_id with
  | error e =>
    have hres : handle_error_response fb m st resp =
        ⟨m, st, [], some (.workRequestNotFound e.request_id)⟩ := by
      simp [handle_error_response, hget]
    rw [hres]
    exact ⟨fun hh => Option.noConfusion hh, hmid, hkey⟩
  | ok c =>
    obtain ⟨r, hq, hc⟩ := get_work_request_container_ok m resp.request_id c hget
    cases fb with
    | true =>
      have hres : handle_error_response true m st resp = ⟨m, st, [], some .externalFailure⟩ := by
        simp [handle_error_response, hget]
      rw [hres]
      exact ⟨fun hh => Option.noConfusion hh, hmid, hkey⟩
    | false =>
      have hget2 : get_work_request_container m (some r) = Except.ok c := by
        rw [← hq]; exact hget
      have hres : handle_error_response false m st resp =
          ⟨mapErase m r, abort_work st c.message_id,
           [.abortWork c.message_id resp.error], none⟩ := by
        simp [handle_error_response, hq, hget2]
      rw [hres]
      have hg := good_erase_result m st r c .aborted hc hall hmid hkey
      exact ⟨fun _ => hg.1, hg.2.1, hg.2.2⟩

lemma goodHR_update_session (r : HResult) (h : GoodHR r) :
    GoodHR (if r.err = none then { r with fx := r.fx ++ [Effect.updateSession] } else r) := by
  by_cases he : r.err = none
  · rw [if_pos he]; exact h
  · rw [if_neg he]; exact h

lemma good_process (env : EnvChoice) (m : WorkRequestContainerMap) (st : Store)
    (resp : WorkerResponse)
    (hall : ∀ p ∈ m, storeGet st p.2.message_id = .started)
    (hmid : (midsOf m).Nodup) (hkey : (keysOf m).Nodup) :
    GoodHR (process_worker_response env m st resp) := by
  rw [process_worker_response]
  by_cases h1 : resp.response_type = "pong"
  · rw [if_pos h1]
    exact ⟨fun _ => hall, hmid, hkey⟩
  · rw [if_neg h1]
    by_cases h2 : resp.response_type = "token"
    · rw [if_pos h2]
      exact good_token env.failTokenEnqueue m st resp hall hmid hkey
    · rw [if_neg h2]
      by_cases h3 : resp.response_type = "generated_text"
      · rw [if_pos h3]
        exact goodHR_update_session _
          (good_gtext env.failCompleteWork env.failFinishedEnqueue m st resp hall hmid hkey)
      · rw [if_neg h3]
        by_cases h4 : resp.response_type = "error"
        · rw [if_pos h4]
          exact goodHR_update_session _
            (good_error_resp env.failAbortWork m st resp hall hmid hkey)
        · rw [if_neg h4]
          by_cases h5 : resp.response_type = "general_error"
          · rw [if_pos h5]
            exact ⟨fun _ => hall, hmid, hkey⟩
          · rw [if_neg h5]
            exact ⟨fun hh => Option.noConfusion hh, hmid, hkey⟩

lemma good_insert_new (m : WorkRequestContainerMap) (st : Store) (mid rid : String)
    (wr : WorkRequest)
    (hall : ∀ p ∈ m, storeGet st p.2.message_id = .started)
    (hmid : (midsOf m).Nodup) (hkey : (keysOf m).Nodup)
    (hpend : storeGet st mid = .pending) :
    (∀ p ∈ mapInsert m rid { work_request := wr, message_id := mid },
      storeGet (storeSet st mid .started) p.2.message_id = .started) ∧
    (midsOf (mapInsert m rid { work_request := wr, message_id := mid })).Nodup ∧
    (keysOf (mapInsert m rid { work_request := wr, message_id := mid })).Nodup := by
  have hnotin : mid ∉ midsOf m := by
    intro hin
    simp only [midsOf, List.mem_map] at hin
    obtain ⟨p, hp, hfp⟩ := hin
    have := hall p hp
    rw [hfp, hpend] at this
    cases this
  refine ⟨?_, midsOf_nodup_mapInsert m rid _ hmid hnotin, keysOf_nodup_mapInsert m rid _ hkey⟩
  intro p hp
  rcases mem_mapInsert m rid _ p hp with hpe | hpm
  · subst hpe
    exact storeGet_storeSet_self st mid .started
  · by_cases hpmid : p.2.message_id = mid
    · rw [hpmid]
      exact storeGet_storeSet_self st mid .started
    · rw [storeGet_storeSet_ne st mid p.2.message_id .started (fun hh => hpmid hh.symm)]
      exact hall p hpm

lemma good_dequeued (m : WorkRequestContainerMap) (st : Store) (mid rid : String)
    (sendOk : Bool)
    (hall : ∀ p ∈ m, storeGet st p.2.message_id = .started)
    (hmid : (midsOf m).Nodup) (hkey : (keysOf m).Nodup) :
    ((initiate_work_for_message st mid rid sendOk).err = none →
      ∀ p ∈ dequeue_insert m mid (initiate_work_for_message st mid rid sendOk).work_request,
        storeGet (initiate_work_for_message st mid rid sendOk).store p.2.message_id =
          .started) ∧
    (midsOf (dequeue_insert m mid
      (initiate_work_for_message st mid rid sendOk).work_request)).Nodup ∧
    (keysOf (dequeue_insert m mid
      (initiate_work_for_message st mid rid sendOk).work_request)).Nodup := by
  cases hsw : start_work st mid with
  | none =>
    simp only [initiate_work_for_message, hsw, dequeue_insert]
    exact ⟨fun hh => Option.noConfusion hh, hmid, hkey⟩
  | some st1 =>
    obtain ⟨hpend, hst1⟩ := start_work_some st mid st1 hsw
    cases sendOk with
    | false =>
      simp only [initiate_work_for_message, hsw, Bool.false_eq_true, if_false, dequeue_insert]
      exact ⟨fun hh => Option.noConfusion hh, hmid, hkey⟩
    | true =>
      simp only [initiate_work_for_message, hsw, if_true, dequeue_insert]
      subst hst1
      have hg := good_insert_new m st mid rid ⟨rid⟩ hall hmid hkey hpend
      exact ⟨fun _ => hg.1, hg.2.1, hg.2.2⟩

/-- The inductive loop invariant behind ledger uniqueness. -/
def GoodState (s : LoopState) : Prop :=
  (s.status = .running →
    ∀ p ∈ s.work_request_map, storeGet s.store p.2.message_id = .started) ∧
  (midsOf s.work_request_map).Nodup ∧ (keysOf s.work_request_map).Nodup

lemma handle_worker_step_preserves_good (cfg : WorkerConfig) (s : LoopState)
    (ev : LoopEvent) (s1 : LoopState) (fx : List Effect)
    (h : handle_worker_step cfg s ev = some (s1, fx)) (hg : GoodState s) :
    GoodState s1 := by
  obtain ⟨hallr, hmid, hkey⟩ := hg
  rw [handle_worker_step.eq_def] at h
  split at h
  · rename_i hrun
    have hall := hallr hrun
    split at h
    · -- waitTimeout
      split at h
      · rw [Option.some.injEq, Prod.mk.injEq] at h
        obtain ⟨h1, _⟩ := h
        subst h1
        exact ⟨hallr, hmid, hkey⟩
      · exact Option.noConfusion h
    · -- disconnect
      split at h
      · rw [Option.some.injEq, Prod.mk.injEq] at h
        obtain ⟨h1, _⟩ := h
        subst h1
        exact ⟨fun hrs => absurd hrs (by simp), hmid, hkey⟩
      · exact Option.noConfusion h
    · -- waitCollect
      split at h
      · rw [Option.some.injEq, Prod.mk.injEq] at h
        obtain ⟨h1, _⟩ := h
        subst h1
        exact ⟨fun _ => hall, hmid, hkey⟩
      · exact Option.noConfusion h
    · -- processNext
      rename_i env
      split at h
      · exact Option.noConfusion h
      · -- dequeued none
        rw [Option.some.injEq, Prod.mk.injEq] at h
        obtain ⟨h1, _⟩ := h
        subst h1
        exact ⟨fun hrs => absurd hrs (by simp), hmid, hkey⟩
      · -- dequeued (some (qn, mid))
        rename_i qn mid rest hbuf
        rw [Option.some.injEq, Prod.mk.injEq] at h
        obtain ⟨h1, _⟩ := h
        subst h1
        have hgd := good_dequeued s.work_request_map s.store mid env.rid env.sendOk
          hall hmid hkey
        refine ⟨?_, hgd.2.1, hgd.2.2⟩
        intro hrs
        replace hrs : statusOf (initiate_work_for_message s.store mid env.rid
            env.sendOk).err = .running := hrs
        rw [statusOf_eq_running] at hrs
        exact hgd.1 hrs
      · -- received resp
        rename_i resp rest hbuf
        rw [Option.some.injEq, Prod.mk.injEq] at h
        obtain ⟨h1, _⟩ := h
        subst h1
        have hgp := good_process env s.work_request_map s.store resp hall hmid hkey
        refine ⟨?_, hgp.2.1, hgp.2.2⟩
        intro hrs
        replace hrs : statusOf (process_worker_response env s.work_request_map s.store
            resp).err = .running := hrs
        rw [statusOf_eq_running] at hrs
        exact hgp.1 hrs
  · exact Option.noConfusion h

lemma handle_worker_run_preserves_good (cfg : WorkerConfig) (evs : List LoopEvent) :
    ∀ (s : LoopState), GoodState s → GoodState (handle_worker_run cfg s evs).1 := by
  induction evs with
  | nil => intro s hg; exact hg
  | cons ev evs ih =>
    intro s hg
    cases hstep : handle_worker_step cfg s ev with
    | none =>
      simp only [handle_worker_run, hstep]
      exact hg
    | some pr =>
      obtain ⟨s1, fx⟩ := pr
      simp only [handle_worker_run, hstep]
      exact ih s1 (handle_worker_step_preserves_good cfg s ev s1 fx hstep hg)

/-- C7: at every reachable point in a connection's lifetime, no `message_id`
appears in more than one in-flight ledger entry: the ledger's message ids are
pairwise distinct (and so are its request-id keys), hence any two distinct
entries carry distinct message ids.  The proof rests on the Message Store
contract modelled from the spec (`start_work` succeeds only on a pending
message), recorded in the `start_work` definition. -/
theorem c7_message_id_uniqueness (cfg : WorkerConfig) (st0 : Store) (s : LoopState)
    (h : ReachableFrom cfg (initState cfg st0) s) :
    (midsOf s.work_request_map).Nodup ∧ (keysOf s.work_request_map).Nodup ∧
    s.work_request_map.Pairwise (fun p q => p.2.message_id ≠ q.2.message_id) := by
  obtain ⟨evs, hrun⟩ := h
  have hg : GoodState (initState cfg st0) := by
    refine ⟨fun _ p hp => absurd hp (List.not_mem_nil p), ?_, ?_⟩
    · simp [initState, midsOf]
    · simp [initState, keysOf]
  have hres := handle_worker_run_preserves_good cfg evs (initState cfg st0) hg
  rw [hrun] at hres
  refine ⟨hres.2.1, hres.2.2, ?_⟩
  exact List.pairwise_map.mp hres.2.1

def c7Cfg : WorkerConfig := ⟨"h", 2⟩

def c7Events : List LoopEvent :=
  [ .waitCollect [.dequeued (some ("q", "mA"))], .processNext { rid := "rA" } ]

def c7S : LoopState := (handle_worker_run c7Cfg (initState c7Cfg []) c7Events).1

theorem c7_message_id_uniqueness_witness :
    (midsOf c7S.work_request_map).Nodup ∧ (keysOf c7S.work_request_map).Nodup ∧
    c7S.work_request_map.Pairwise (fun p q => p.2.message_id ≠ q.2.message_id) :=
  c7_message_id_uniqueness c7Cfg [] c7S ⟨c7Events, rfl⟩

/-! ## Claim C3: the five termination steps

The `finally` block always runs its four guarded cleanup steps in order, but
the Recovery Handler lives in `except Exception`, which in Python does not
catch `asyncio.CancelledError` (a `BaseException` since Python 3.8).  A loop
cancelled at an await point therefore skips step (1) entirely, refuting the
claim's "for any reason, including cancellation"; for `Exception`-typed
terminations all five steps run in order, each isolated.
-/

lemma cancel_pending_futures_ok (n : Nat) :
    cancel_pending_futures n [] = List.replicate n Effect.cancelFuture := by
  induction n with
  | zero => rfl
  | succ k ih => simp [cancel_pending_futures, List.replicate_succ, ih]

/-- Marks the effects that only the Recovery Handler emits. -/
def isRecoveryEffect : Effect → Bool
  | .resetWork _ => true
  | .enqueueWork _ => true
  | .abortWork _ _ => true
  | _ => false

def c3Ledger : WorkRequestContainerMap :=
  [("r1", { work_request := ⟨"r1"⟩, message_id := "m1" })]

/-- C3 counterexample: a termination by cancellation with one entry still in
the ledger runs only the `finally` cleanup steps and emits no recovery effect
at all, contradicting the claim that step (1), the Recovery Handler over all
remaining ledger entries, runs whenever the loop terminates for any reason
including cancellation. -/
theorem c3_cancellation_skips_recovery :
    c3Ledger.length = 1 ∧
    handle_worker_termination .cancelled c3Ledger [] 0 {} =
      [.closeRedis, .deleteSession, .closeWebsocket] ∧
    (handle_worker_termination .cancelled c3Ledger [] 0 {}).filter isRecoveryEffect = [] :=
  ⟨rfl, rfl, rfl⟩

/-- C3 amended: when the loop terminates with an `Exception`-typed error, the
five steps run in exactly the claimed order (recovery over the ledger, close
of the dedicated queue connection, deletion of the worker session, one cancel
per pending operation, close of the websocket), and each cleanup step is
isolated: an injected failure of one never suppresses a later one.  When the
loop is cancelled (`BaseException`), steps (2)-(5) still run but the Recovery
Handler is skipped. -/
theorem c3_termination_order_and_isolation :
    (∀ (e : LoopError) (m : WorkRequestContainerMap) (n : Nat),
      handle_worker_termination (.exc e) m (List.replicate m.length .ok) n {} =
        recover_work_requests m (errMsg e) (List.replicate m.length .ok)
          ++ [Effect.closeRedis] ++ [Effect.deleteSession]
          ++ List.replicate n Effect.cancelFuture ++ [Effect.closeWebsocket]) ∧
    (∀ (e : PyError) (m : WorkRequestContainerMap) (fs : List RecoveryFailure) (n : Nat)
        (cf : CleanupFailures),
      (cf.failCloseRedis = false →
        Effect.closeRedis ∈ handle_worker_termination e m fs n cf) ∧
      (cf.failDeleteSession = false →
        Effect.deleteSession ∈ handle_worker_termination e m fs n cf) ∧
      (cf.failCloseWebsocket = false →
        Effect.closeWebsocket ∈ handle_worker_termination e m fs n cf)) ∧
    (∀ (m : WorkRequestContainerMap) (fs : List RecoveryFailure) (n : Nat)
        (cf : CleanupFailures),
      handle_worker_termination .cancelled m fs n cf = cleanup_finally n cf) := by
  refine ⟨?_, ?_, ?_⟩
  · intro e m n
    simp [handle_worker_termination, cleanup_finally, cancel_pending_futures_ok,
      List.append_assoc]
  · intro e m fs n cf
    refine ⟨?_, ?_, ?_⟩ <;> intro hf <;> cases e <;>
      simp [handle_worker_termination, cleanup_finally, hf]
  · intro m fs n cf
    rfl

theorem c3_termination_order_and_isolation_witness :
    Effect.closeWebsocket ∈ handle_worker_termination .cancelled c3Ledger [] 0 {} :=
  (c3_termination_order_and_isolation.2.1 .cancelled c3Ledger [] 0 {}).2.2 rfl

end OasstWorkers
